import Mathlib

/-!
Verification development for the Nova-launch token-factory contract
(`src/contracts/token-factory/src/{lib.rs, storage.rs, types.rs}`).

The contract is a Soroban smart contract.  Its persistent instance storage
is modelled as an explicit `Store` record; each public contract function is
a pure function from a pre-call store (plus arguments) to a result.

Modelling conventions, matching the Soroban host semantics:
* `Address` values are opaque identities, modelled as `Nat`.
* Rust `i128` is modelled as `Int` together with explicit overflow checks
  (`i128_checked_add`), mirroring `checked_add` in the source.
* A Rust `unwrap()` on a missing storage key aborts ("traps") the whole
  invocation; operations that can trap return `Option`, with `none` for
  the trap.
* A contract invocation that returns an error (or traps) has every one of
  its storage writes rolled back by the host, so the post-invocation
  ledger state equals the pre-call state.  The `Except Error Store`
  results carry the post state only in the `ok` case; the helper
  functions `postE`/`postO` compute the post-invocation store, returning
  the pre-call store on any failure.
* `require_auth` aborts the invocation (with no state change) when the
  claimed identity did not authorize the call; the embedding models the
  authenticated calls, and all identity *comparisons* performed by the
  contract (`Unauthorized` checks) are explicit.
* Events (`env.events().publish(...)`) go to an external sink and do not
  affect contract state; they are not modelled.
-/

/-- Bound of the Rust `i128` type: smallest value. -/
def I128_MIN : Int := -(2 ^ 127)

/-- Bound of the Rust `i128` type: largest value. -/
def I128_MAX : Int := 2 ^ 127 - 1

/-- Largest value of the Rust `u32` type. -/
def U32_MAX : Nat := 2 ^ 32 - 1

/-- Rust `i128::checked_add`: the sum when it stays within the `i128`
range, `none` on overflow. -/
def i128_checked_add (a b : Int) : Option Int :=
  if I128_MIN ≤ a + b ∧ a + b ≤ I128_MAX then some (a + b) else none

/-- Rust `u32::checked_add`: the sum when it stays within the `u32`
range, `none` on overflow. -/
def u32_checked_add (a b : Nat) : Option Nat :=
  if a + b ≤ U32_MAX then some (a + b) else none

/-- Opaque Soroban address / identity. -/
abbrev Address := Nat

/-- Record of `FactoryState` from `types.rs`. -/
structure FactoryState where
  admin : Address
  treasury : Address
  base_fee : Int
  metadata_fee : Int
deriving DecidableEq, Repr

/-- Record of `TokenInfo`.  The declaration in `types.rs` lists `address`,
`creator`, `name`, `symbol`, `decimals`, `total_supply`, `metadata_uri`
and `created_at`; the fields `total_burned`, `burn_count` and
`clawback_enabled` are the ones read and written by `storage.rs`
(`update_token_supply`) and `lib.rs` (`admin_burn`, `set_clawback`) and
listed for TokenRecord in the specification, so the effective record type
carries all of them.  `burn_count` is a `u32`-sized counter. -/
structure TokenInfo where
  address : Address
  creator : Address
  name : String
  symbol : String
  decimals : Nat
  total_supply : Int
  total_burned : Int
  burn_count : Nat
  metadata_uri : Option String
  clawback_enabled : Bool
  created_at : Nat
deriving DecidableEq, Repr

/-- Error enum from `types.rs`, extended with the variants used by
`lib.rs` (`ClawbackDisabled`, `InvalidBurnAmount`) and by the tests and
the specification error taxonomy (`BurnAmountExceedsBalance`). -/
inductive Error where
  | InsufficientFee
  | Unauthorized
  | InvalidParameters
  | TokenNotFound
  | MetadataAlreadySet
  | AlreadyInitialized
  | BurnAmountExceedsBalance
  | ClawbackDisabled
  | InvalidBurnAmount
deriving DecidableEq, Repr

/-- The contract's persistent instance storage, one field per `DataKey`
(`Admin`, `Treasury`, `BaseFee`, `MetadataFee`, `TokenCount`,
`Token(index)`, `TokenByAddress(addr)`).  A `none` value means the key is
absent from storage. -/
structure Store where
  admin : Option Address
  treasury : Option Address
  base_fee : Option Int
  metadata_fee : Option Int
  token_count : Option Nat
  token_by_index : Nat → Option TokenInfo
  token_by_address : Address → Option TokenInfo

/-- Store with no key set: the state before any call. -/
def emptyStore : Store :=
  { admin := none
    treasury := none
    base_fee := none
    metadata_fee := none
    token_count := none
    token_by_index := fun _ => none
    token_by_address := fun _ => none }

/-! ## Storage access layer (`storage.rs`) -/

/-- Embeds `get_admin`.  The source unwraps the stored value; a `none`
result here stands for that trap. -/
def get_admin (s : Store) : Option Address := s.admin

/-- Embeds `set_admin`. -/
def set_admin (s : Store) (admin : Address) : Store := { s with admin := some admin }

/-- Embeds `has_admin`. -/
def has_admin (s : Store) : Bool := s.admin.isSome

/-- Embeds `get_treasury` (unwrap modelled as `Option`). -/
def get_treasury (s : Store) : Option Address := s.treasury

/-- Embeds `set_treasury`. -/
def set_treasury (s : Store) (treasury : Address) : Store := { s with treasury := some treasury }

/-- Embeds `get_base_fee` (unwrap modelled as `Option`). -/
def get_base_fee (s : Store) : Option Int := s.base_fee

/-- Embeds `set_base_fee`. -/
def set_base_fee (s : Store) (fee : Int) : Store := { s with base_fee := some fee }

/-- Embeds `get_metadata_fee` (unwrap modelled as `Option`). -/
def get_metadata_fee (s : Store) : Option Int := s.metadata_fee

/-- Embeds `set_metadata_fee`. -/
def set_metadata_fee (s : Store) (fee : Int) : Store := { s with metadata_fee := some fee }

/-- Embeds `get_token_count` (`unwrap_or(0)`). -/
def get_token_count (s : Store) : Nat := s.token_count.getD 0

/-- Embeds `get_token_info` (lookup by index, `Option`-valued). -/
def get_token_info (s : Store) (index : Nat) : Option TokenInfo := s.token_by_index index

/-- Embeds `set_token_info` (write to the index-keyed map). -/
def set_token_info (s : Store) (index : Nat) (info : TokenInfo) : Store :=
  { s with token_by_index := fun i => if i = index then some info else s.token_by_index i }

/-- Embeds `increment_token_count`. -/
def increment_token_count (s : Store) : Store :=
  { s with token_count := some (get_token_count s + 1) }

/-- Embeds `get_factory_state`: unwraps all four config keys, so a `none`
result models the trap raised when any of them is missing. -/
def get_factory_state (s : Store) : Option FactoryState :=
  match get_admin s, get_treasury s, get_base_fee s, get_metadata_fee s with
  | some a, some t, some bf, some mf =>
      some { admin := a, treasury := t, base_fee := bf, metadata_fee := mf }
  | _, _, _, _ => none

/-- Embeds `get_token_info_by_address` (lookup in the identity-keyed map). -/
def get_token_info_by_address (s : Store) (token_address : Address) : Option TokenInfo :=
  s.token_by_address token_address

/-- Embeds `set_token_info_by_address` (write to the identity-keyed map). -/
def set_token_info_by_address (s : Store) (token_address : Address) (info : TokenInfo) : Store :=
  { s with token_by_address :=
      fun a => if a = token_address then some info else s.token_by_address a }

/-- Embeds `update_token_supply`: fetches the identity-keyed record, adds
`amount_change` to `total_supply` with `checked_add`, and when the change
is negative also adds `-amount_change` to `total_burned` and `1` to
`burn_count` (both checked); `none` when the record is missing or any
checked addition overflows, in which case nothing is written. -/
def update_token_supply (s : Store) (token_address : Address) (amount_change : Int) :
    Option Store := do
  let info ← get_token_info_by_address s token_address
  let ts ← i128_checked_add info.total_supply amount_change
  if amount_change < 0 then
    let tb ← i128_checked_add info.total_burned (-amount_change)
    let bc ← u32_checked_add info.burn_count 1
    some (set_token_info_by_address s token_address
      { info with total_supply := ts, total_burned := tb, burn_count := bc })
  else
    some (set_token_info_by_address s token_address { info with total_supply := ts })

/-! ## Public contract operations (`lib.rs`) -/

/-- Embeds the contract's `initialize` function from `lib.rs` (the Lean
name avoids a clash): rejects a second initialization, rejects negative
fees, otherwise writes admin, treasury and both fees. -/
def init_factory (s : Store) (admin treasury : Address) (base_fee metadata_fee : Int) :
    Except Error Store :=
  if has_admin s then
    .error .AlreadyInitialized
  else if base_fee < 0 ∨ metadata_fee < 0 then
    .error .InvalidParameters
  else
    .ok (set_metadata_fee (set_base_fee (set_treasury (set_admin s admin) treasury) base_fee)
      metadata_fee)

/-- Embeds `get_state`: returns `get_factory_state`; `none` models the
trap on a store missing any of the four config keys. -/
def get_state (s : Store) : Option FactoryState := get_factory_state s

/-- Embeds `update_fees`.  The outer `none` models the trap of
`get_admin`'s unwrap on an uninitialized store.  The source writes the
base fee before validating the metadata fee; a subsequent error return
makes the Soroban host roll back that write, which the embedding models
by discarding the intermediate store `s1` on the error path. -/
def update_fees (s : Store) (admin : Address) (base_fee metadata_fee : Option Int) :
    Option (Except Error Store) :=
  match get_admin s with
  | none => none
  | some current_admin =>
    if admin ≠ current_admin then some (.error .Unauthorized)
    else
      match base_fee with
      | some fee =>
        if fee < 0 then some (.error .InvalidParameters)
        else
          let s1 := set_base_fee s fee
          match metadata_fee with
          | some fee2 =>
            if fee2 < 0 then some (.error .InvalidParameters)
            else some (.ok (set_metadata_fee s1 fee2))
          | none => some (.ok s1)
      | none =>
        match metadata_fee with
        | some fee2 =>
          if fee2 < 0 then some (.error .InvalidParameters)
          else some (.ok (set_metadata_fee s fee2))
        | none => some (.ok s)

/-- Embeds `admin_burn`.  The balance check against the token contract is
a commented-out TODO in the source, so no balance is consulted: after the
four validations the supply update is applied unconditionally.  `fromAddr`
(`from` in the source) is only used in the emitted event. -/
def admin_burn (s : Store) (token_address admin fromAddr : Address) (amount : Int) :
    Except Error Store :=
  match get_token_info_by_address s token_address with
  | none => .error .TokenNotFound
  | some token_info =>
    if token_info.creator ≠ admin then .error .Unauthorized
    else if !token_info.clawback_enabled then .error .ClawbackDisabled
    else if amount ≤ 0 then .error .InvalidBurnAmount
    else
      match update_token_supply s token_address (-amount) with
      | none => .error .InvalidParameters
      | some s' => .ok s'

/-- Embeds `set_clawback`: looks the record up in the identity-keyed map,
checks the caller is the creator, and writes the toggled record back to
the identity-keyed map only. -/
def set_clawback (s : Store) (token_address admin : Address) (enabled : Bool) :
    Except Error Store :=
  match get_token_info_by_address s token_address with
  | none => .error .TokenNotFound
  | some token_info =>
    if token_info.creator ≠ admin then .error .Unauthorized
    else .ok (set_token_info_by_address s token_address
      { token_info with clawback_enabled := enabled })

/-- Post-invocation store of an `Except`-valued operation: the new store
on success, the pre-call store otherwise (the Soroban host rolls back the
writes of a failed invocation). -/
def postE (s : Store) : Except Error Store → Store
  | .ok s' => s'
  | .error _ => s

/-- Post-invocation store of an `Option (Except ..)`-valued operation: the
new store on success, the pre-call store on a returned error or a trap. -/
def postO (s : Store) : Option (Except Error Store) → Store
  | some (.ok s') => s'
  | _ => s

/-! ## Operations modelled from the specification

The public surface in the specification (§4, §6) also lists
`create_token`, `set_metadata`, `burn` and `burn_batch`.  These functions
are not under `src/` (only their test callers are), so each is modelled
from the spec (doc comments below name the source of each behaviour). -/

/-- Modelled from the spec: `create_token` (§4.3 Issuance Orchestrator)
is missing from `src/`; only its test callers exist.  Per the spec it
(1) fails `InvalidParameters` on an empty name/symbol or non-positive
initial supply, with no state change; (2) computes
`required_fee = base_fee + (metadata_fee if metadata_uri is present)`
from the current config (reading a fee from an uninitialized config
traps, modelled by the outer `none`); (3) fails `InsufficientFee` when
`provided_fee < required_fee`; (4) provisions the external token object,
whose fresh opaque identity is the `external_id` argument; (5) builds the
record with `total_supply = initial_supply`, `total_burned = 0`,
`burn_count = 0`, `clawback_enabled` defaulted to false and
`created_at = now`; (6) commits it under the next sequential index and
under the external identity and increments `token_count` by one, all as
one unit, returning the external identity. -/
def create_token (s : Store) (creator : Address) (name symbol : String) (decimals : Nat)
    (initial_supply : Int) (metadata_uri : Option String) (provided_fee : Int)
    (external_id : Address) (now : Nat) : Option (Except Error (Address × Store)) :=
  if name = "" ∨ symbol = "" ∨ initial_supply ≤ 0 then
    some (.error .InvalidParameters)
  else do
    let bf ← get_base_fee s
    let mf ← get_metadata_fee s
    let required_fee := bf + (match metadata_uri with | some _ => mf | none => 0)
    if provided_fee < required_fee then some (.error .InsufficientFee)
    else
        let record : TokenInfo :=
          { address := external_id
            creator := creator
            name := name
            symbol := symbol
            decimals := decimals
            total_supply := initial_supply
            total_burned := 0
            burn_count := 0
            metadata_uri := metadata_uri
            clawback_enabled := false
            created_at := now }
        let index := get_token_count s
        some (.ok (external_id,
          increment_token_count
            (set_token_info_by_address (set_token_info s index record) external_id record)))

/-- Modelled from the spec: `set_metadata` (§4.4 Metadata Immutability)
is missing from `src/`; its test callers invoke it with a token index and
a URI.  Per the spec it fails `MetadataAlreadySet` when the record's
`metadata_uri` is already `Some(..)` and only writes when currently
unset; per the dual-index discipline (§4.2, §9) the write keeps both the
index-keyed and the identity-keyed record in agreement, so the URI is set
on both (when an identity-keyed record exists for the record's address). -/
def set_metadata (s : Store) (index : Nat) (uri : String) : Except Error Store :=
  match get_token_info s index with
  | none => .error .TokenNotFound
  | some record =>
    match record.metadata_uri with
    | some _ => .error .MetadataAlreadySet
    | none =>
      match get_token_info_by_address
          (set_token_info s index { record with metadata_uri := some uri })
          record.address with
      | some record_by_id =>
        .ok (set_token_info_by_address
          (set_token_info s index { record with metadata_uri := some uri })
          record.address { record_by_id with metadata_uri := some uri })
      | none => .ok (set_token_info s index { record with metadata_uri := some uri })

/-- Modelled from the spec: `burn` (§4.5) is missing from `src/`; only
its test callers exist.  Per the spec it fails `InvalidBurnAmount` when
`amount ≤ 0`, `TokenNotFound` for an unknown token, and
`BurnAmountExceedsBalance` when the collaborator ledger reports an
insufficient balance (the collaborator's report for `fromAddr` is the
`balance` argument); on success it applies the same checked counter
updates as `admin_burn`, through `update_token_supply`, with overflow a
validation failure. -/
def burn (s : Store) (token_address fromAddr : Address) (amount balance : Int) :
    Except Error Store :=
  if amount ≤ 0 then .error .InvalidBurnAmount
  else
    match get_token_info_by_address s token_address with
    | none => .error .TokenNotFound
    | some _ =>
      if balance < amount then .error .BurnAmountExceedsBalance
      else
        match update_token_supply s token_address (-amount) with
        | none => .error .InvalidParameters
        | some s' => .ok s'

/-- Sequential application of the entries of a burn batch; an error on
any entry aborts the whole run (the discarded intermediate stores model
the host's rollback of the failed invocation). -/
def burn_batch_go (s : Store) (token_address : Address) (bal : Address → Int) :
    List (Address × Int) → Except Error Store
  | [] => .ok s
  | (holder, amount) :: rest =>
    match burn s token_address holder amount (bal holder) with
    | .error e => .error e
    | .ok s' => burn_batch_go s' token_address bal rest

/-- Modelled from the spec: `burn_batch` (§4.5) is missing from `src/`.
Per the spec it applies the same validation as `burn` to every entry and
rejects the entire batch, with no record mutated, when any single entry
is invalid or over balance (`bal` is the collaborator's balance report
per holder). -/
def burn_batch (s : Store) (token_address : Address) (entries : List (Address × Int))
    (bal : Address → Int) : Except Error Store :=
  burn_batch_go s token_address bal entries

/-! ## Operation labels, steps and traces -/

/-- One public state-mutating operation of the contract surface, with its
arguments.  `create_token` carries the fresh external identity returned
by the collaborator and the current time; `burn`/`burn_batch` carry the
collaborator's balance report. -/
inductive Op where
  | init_factory (admin treasury : Address) (base_fee metadata_fee : Int)
  | update_fees (admin : Address) (base_fee metadata_fee : Option Int)
  | create_token (creator : Address) (name symbol : String) (decimals : Nat)
      (initial_supply : Int) (metadata_uri : Option String) (provided_fee : Int)
      (external_id : Address) (now : Nat)
  | set_metadata (index : Nat) (uri : String)
  | burn (token_address fromAddr : Address) (amount balance : Int)
  | burn_batch (token_address : Address) (entries : List (Address × Int))
      (bal : Address → Int)
  | admin_burn (token_address admin fromAddr : Address) (amount : Int)
  | set_clawback (token_address admin : Address) (enabled : Bool)

/-- Labels whether an operation is the factory initialization. -/
def opIsInit : Op → Bool
  | .init_factory _ _ _ _ => true
  | _ => false

/-- Applies one operation to a store; `none` is a trap, `some (.error e)`
a returned error (rolled back by the host), `some (.ok s')` a successful
invocation with post state `s'`. -/
def apply_op (s : Store) : Op → Option (Except Error Store)
  | .init_factory a t bf mf => some (init_factory s a t bf mf)
  | .update_fees a bf mf => update_fees s a bf mf
  | .create_token c n sym d sup uri fee ext now =>
    match create_token s c n sym d sup uri fee ext now with
    | none => none
    | some (.error e) => some (.error e)
    | some (.ok (_, s')) => some (.ok s')
  | .set_metadata i uri => some (set_metadata s i uri)
  | .burn token holder amount balance => some (burn s token holder amount balance)
  | .burn_batch token entries bal => some (burn_batch s token entries bal)
  | .admin_burn token a holder amount => some (admin_burn s token a holder amount)
  | .set_clawback token a enabled => some (set_clawback s token a enabled)

/-- Environment side condition of an operation: the opaque identity the
collaborator returns for a freshly provisioned token is new, i.e. not yet
a key of the identity-keyed registry. -/
def OpOk (s : Store) : Op → Prop
  | .create_token _ _ _ _ _ _ _ ext _ => get_token_info_by_address s ext = none
  | _ => True

/-- One successful invocation of a public operation. -/
def Step (s : Store) (op : Op) (s' : Store) : Prop :=
  OpOk s op ∧ apply_op s op = some (.ok s')

/-- Successive successful invocations: `Trace s ops s'` runs the listed
operations from `s`, ending in `s'`.  A state is reachable when some
trace from `emptyStore` ends in it (failed invocations are rolled back by
the host and do not change the store, so they are omitted without loss). -/
inductive Trace : Store → List Op → Store → Prop where
  | nil (s : Store) : Trace s [] s
  | cons {s s₁ s₂ : Store} {op : Op} {ops : List Op} :
      Step s op s₁ → Trace s₁ ops s₂ → Trace s (op :: ops) s₂

/-- Post state of applying one operation (pre state on failure or trap). -/
def stepTo (s : Store) (op : Op) : Store := postO s (apply_op s op)

set_option maxRecDepth 1000000

/-! ## Concrete example states

A small concrete run used by counterexamples and witnesses: the factory
is initialized, one token is created, clawback is enabled on it, and an
over-supply admin burn is applied. -/

/-- Example operation: initialize the factory (admin 0, treasury 1, base
fee 70, metadata fee 30). -/
def exOp0 : Op := .init_factory 0 1 70 30

/-- Example operation: creator 2 issues a token with initial supply
1000000, no metadata, fee 70, fresh external identity 5, at time 0. -/
def exOp1 : Op := .create_token 2 "Nova" "NVA" 7 1000000 none 70 5 0

/-- Example operation: the creator enables clawback on token 5. -/
def exOp2 : Op := .set_clawback 5 2 true

/-- Example operation: the creator admin-burns 2000000 units (more than
the total supply) from holder 9 on token 5. -/
def exOp3 : Op := .admin_burn 5 2 9 2000000

/-- Store after `exOp0`. -/
def exS1 : Store := stepTo emptyStore exOp0

/-- Store after `exOp0, exOp1`. -/
def exS2 : Store := stepTo exS1 exOp1

/-- Store after `exOp0, exOp1, exOp2`. -/
def exS3 : Store := stepTo exS2 exOp2

/-- Store after `exOp0, exOp1, exOp2, exOp3`. -/
def exS4 : Store := stepTo exS3 exOp3

/-! ## Invariants and frame predicates -/

/-- Two stores hold the same factory configuration. -/
def SameConfig (s s' : Store) : Prop :=
  s'.admin = s.admin ∧ s'.treasury = s.treasury ∧
  s'.base_fee = s.base_fee ∧ s'.metadata_fee = s.metadata_fee

/-- Two stores hold the same token registry (both maps and the count). -/
def SameRegistry (s s' : Store) : Prop :=
  (∀ i, get_token_info s' i = get_token_info s i) ∧
  (∀ x, get_token_info_by_address s' x = get_token_info_by_address s x) ∧
  get_token_count s' = get_token_count s

/-- Agreement of two token records on every field except the
supply-adjustment and clawback fields (`total_supply`, `total_burned`,
`burn_count`, `clawback_enabled`). -/
def AgreeCore (r r' : TokenInfo) : Prop :=
  r'.address = r.address ∧ r'.creator = r.creator ∧ r'.name = r.name ∧
  r'.symbol = r.symbol ∧ r'.decimals = r.decimals ∧
  r'.metadata_uri = r.metadata_uri ∧ r'.created_at = r.created_at

/-- Registry well-formedness: every index below the count holds a record
whose identity-keyed twin exists and agrees on the core fields; records
at distinct indices have distinct addresses; no record sits at or above
the count. -/
def RegistryInv (s : Store) : Prop :=
  (∀ i, i < get_token_count s → ∃ r r',
      get_token_info s i = some r ∧
      get_token_info_by_address s r.address = some r' ∧ AgreeCore r r') ∧
  (∀ i j ri rj, i < get_token_count s → j < get_token_count s → i ≠ j →
      get_token_info s i = some ri → get_token_info s j = some rj →
      ri.address ≠ rj.address) ∧
  (∀ i, get_token_count s ≤ i → get_token_info s i = none)

/-- No factory-configuration key is present. -/
def NoConfig (s : Store) : Prop :=
  s.admin = none ∧ s.treasury = none ∧ s.base_fee = none ∧ s.metadata_fee = none

/-! ## Helper lemmas -/

theorem i128_checked_add_some {a b c : Int} (h : i128_checked_add a b = some c) :
    c = a + b := by
  unfold i128_checked_add at h
  by_cases hb : I128_MIN ≤ a + b ∧ a + b ≤ I128_MAX
  · rw [if_pos hb] at h; exact (Option.some.inj h).symm
  · rw [if_neg hb] at h; exact absurd h (by simp)

theorem u32_checked_add_some {a b c : Nat} (h : u32_checked_add a b = some c) :
    c = a + b := by
  unfold u32_checked_add at h
  by_cases hb : a + b ≤ U32_MAX
  · rw [if_pos hb] at h; exact (Option.some.inj h).symm
  · rw [if_neg hb] at h; exact absurd h (by simp)

theorem get_token_info_set_by_address (s : Store) (a : Address) (info : TokenInfo) (i : Nat) :
    get_token_info (set_token_info_by_address s a info) i = get_token_info s i := rfl

theorem get_token_count_set_by_address (s : Store) (a : Address) (info : TokenInfo) :
    get_token_count (set_token_info_by_address s a info) = get_token_count s := rfl

theorem get_by_address_set_by_address (s : Store) (a : Address) (info : TokenInfo)
    (x : Address) :
    get_token_info_by_address (set_token_info_by_address s a info) x =
      if x = a then some info else get_token_info_by_address s x := rfl

theorem get_by_address_set_token_info (s : Store) (j : Nat) (info : TokenInfo) (x : Address) :
    get_token_info_by_address (set_token_info s j info) x =
      get_token_info_by_address s x := rfl

theorem get_token_info_set_token_info (s : Store) (j : Nat) (info : TokenInfo) (i : Nat) :
    get_token_info (set_token_info s j info) i =
      if i = j then some info else get_token_info s i := rfl

theorem same_config_set_by_address (s : Store) (a : Address) (info : TokenInfo) :
    SameConfig s (set_token_info_by_address s a info) :=
  ⟨rfl, rfl, rfl, rfl⟩

/-- Characterization of a successful `update_token_supply`: the record
exists, every checked addition succeeded, and the store write is the
single identity-keyed write of the adjusted record. -/
theorem update_token_supply_eq_some {s : Store} {a : Address} {c : Int} {s' : Store}
    (h : update_token_supply s a c = some s') :
    ∃ r, get_token_info_by_address s a = some r ∧
      ((c < 0 ∧ ∃ ts tb bc,
          i128_checked_add r.total_supply c = some ts ∧
          i128_checked_add r.total_burned (-c) = some tb ∧
          u32_checked_add r.burn_count 1 = some bc ∧
          s' = set_token_info_by_address s a
            { r with total_supply := ts, total_burned := tb, burn_count := bc }) ∨
       (¬ c < 0 ∧ ∃ ts, i128_checked_add r.total_supply c = some ts ∧
          s' = set_token_info_by_address s a { r with total_supply := ts })) := by
  unfold update_token_supply at h
  simp only [bind, Option.bind_eq_some] at h
  obtain ⟨r, hr, h⟩ := h
  obtain ⟨ts, hts, h⟩ := h
  by_cases hc : c < 0
  · rw [if_pos hc] at h
    simp only [bind, Option.bind_eq_some] at h
    obtain ⟨tb, htb, bc, hbc, h⟩ := h
    exact ⟨r, hr, .inl ⟨hc, ts, tb, bc, hts, htb, hbc, (Option.some.inj h).symm⟩⟩
  · rw [if_neg hc] at h
    exact ⟨r, hr, .inr ⟨hc, ts, hts, (Option.some.inj h).symm⟩⟩

theorem same_registry_init_factory {s : Store} {a t : Address} {bf mf : Int} {s' : Store}
    (h : init_factory s a t bf mf = .ok s') : SameRegistry s s' := by
  unfold init_factory at h
  split at h
  · exact absurd h (by simp)
  split at h
  · exact absurd h (by simp)
  cases h
  exact ⟨fun i => rfl, fun x => rfl, rfl⟩

theorem same_config_init_factory {s : Store} {a t : Address} {bf mf : Int} {s' : Store}
    (h : init_factory s a t bf mf = .ok s') :
    s'.admin = some a ∧ s'.treasury = some t ∧ s'.base_fee = some bf ∧
      s'.metadata_fee = some mf := by
  unfold init_factory at h
  split at h
  · exact absurd h (by simp)
  split at h
  · exact absurd h (by simp)
  cases h
  exact ⟨rfl, rfl, rfl, rfl⟩

theorem same_registry_update_fees {s : Store} {a : Address} {bf mf : Option Int} {s' : Store}
    (h : update_fees s a bf mf = some (.ok s')) : SameRegistry s s' := by
  unfold update_fees at h
  repeat' split at h
  all_goals simp only [Option.some.injEq, Except.ok.injEq, reduceCtorEq] at h
  all_goals (subst h; exact ⟨fun i => rfl, fun x => rfl, rfl⟩)

theorem registry_inv_same_registry {s s' : Store} (hsr : SameRegistry s s')
    (hinv : RegistryInv s) : RegistryInv s' := by
  obtain ⟨hidx, hby, hcount⟩ := hsr
  obtain ⟨h1, h2, h3⟩ := hinv
  refine ⟨?_, ?_, ?_⟩
  · intro i hi
    obtain ⟨r, r', hri, hra, hag⟩ := h1 i (hcount ▸ hi)
    exact ⟨r, r', (hidx i).trans hri, (hby r.address).trans hra, hag⟩
  · intro i j ri rj hi hj hij hri hrj
    exact h2 i j ri rj (hcount ▸ hi) (hcount ▸ hj) hij
      ((hidx i).symm.trans hri) ((hidx j).symm.trans hrj)
  · intro i hi
    exact (hidx i).trans (h3 i (hcount ▸ hi))

/-- Writing to the identity-keyed map over an existing record, with a new
record that matches the old one on all `AgreeCore` fields, preserves the
registry invariant. -/
theorem registry_inv_write_noncore {s : Store} {a : Address} {info r_new : TokenInfo}
    (hl : get_token_info_by_address s a = some info)
    (haddr : r_new.address = info.address) (hcr : r_new.creator = info.creator)
    (hn : r_new.name = info.name) (hsym : r_new.symbol = info.symbol)
    (hd : r_new.decimals = info.decimals) (hm : r_new.metadata_uri = info.metadata_uri)
    (hca : r_new.created_at = info.created_at)
    (hinv : RegistryInv s) : RegistryInv (set_token_info_by_address s a r_new) := by
  obtain ⟨h1, h2, h3⟩ := hinv
  refine ⟨?_, ?_, ?_⟩
  · intro i hi
    rw [get_token_count_set_by_address] at hi
    obtain ⟨r, r', hri, hra, hag⟩ := h1 i hi
    by_cases hx : r.address = a
    · refine ⟨r, r_new, hri, ?_, ?_⟩
      · rw [get_by_address_set_by_address, if_pos hx]
      · have hr' : r' = info := by
          rw [hx] at hra
          exact Option.some.inj (hra.symm.trans hl)
        obtain ⟨a1, a2, a3, a4, a5, a6, a7⟩ := hag
        rw [hr'] at a1 a2 a3 a4 a5 a6 a7
        exact ⟨haddr.trans a1, hcr.trans a2, hn.trans a3, hsym.trans a4, hd.trans a5,
          hm.trans a6, hca.trans a7⟩
    · refine ⟨r, r', hri, ?_, hag⟩
      rw [get_by_address_set_by_address, if_neg hx]
      exact hra
  · intro i j ri rj hi hj hij hri hrj
    rw [get_token_count_set_by_address] at hi hj
    exact h2 i j ri rj hi hj hij hri hrj
  · intro i hi
    rw [get_token_count_set_by_address] at hi
    exact h3 i hi

theorem registry_inv_update_token_supply {s : Store} {a : Address} {c : Int} {s' : Store}
    (h : update_token_supply s a c = some s') (hinv : RegistryInv s) : RegistryInv s' := by
  obtain ⟨r, hr, hcase⟩ := update_token_supply_eq_some h
  rcases hcase with ⟨-, ts, tb, bc, -, -, -, rfl⟩ | ⟨-, ts, -, rfl⟩
  · exact registry_inv_write_noncore hr rfl rfl rfl rfl rfl rfl rfl hinv
  · exact registry_inv_write_noncore hr rfl rfl rfl rfl rfl rfl rfl hinv

theorem same_config_update_token_supply {s : Store} {a : Address} {c : Int} {s' : Store}
    (h : update_token_supply s a c = some s') : SameConfig s s' := by
  obtain ⟨r, hr, hcase⟩ := update_token_supply_eq_some h
  rcases hcase with ⟨-, ts, tb, bc, -, -, -, rfl⟩ | ⟨-, ts, -, rfl⟩
  · exact same_config_set_by_address s a _
  · exact same_config_set_by_address s a _

/-- Characterization of a successful `create_token`: the inputs passed
validation, the returned identity is the provisioned one, and the store
gains the new record under the next index and under the identity, with
the count incremented. -/
theorem create_token_eq_ok {s : Store} {c : Address} {n sym : String} {d : Nat} {sup : Int}
    {uri : Option String} {fee : Int} {ext : Address} {now : Nat} {ex : Address} {s' : Store}
    (h : create_token s c n sym d sup uri fee ext now = some (.ok (ex, s'))) :
    ex = ext ∧ n ≠ "" ∧ sym ≠ "" ∧ 0 < sup ∧
    ∃ record : TokenInfo,
      record.address = ext ∧ record.creator = c ∧ record.name = n ∧ record.symbol = sym ∧
      record.decimals = d ∧ record.total_supply = sup ∧ record.total_burned = 0 ∧
      record.burn_count = 0 ∧ record.metadata_uri = uri ∧ record.clawback_enabled = false ∧
      record.created_at = now ∧
      s' = increment_token_count
        (set_token_info_by_address (set_token_info s (get_token_count s) record) ext record) := by
  unfold create_token at h
  split at h
  · exact nomatch h
  next hvalid =>
    push_neg at hvalid
    obtain ⟨hn, hsym, hsup⟩ := hvalid
    simp only [bind, Option.bind_eq_some] at h
    obtain ⟨bf, hbf, mf, hmf, h⟩ := h
    split at h
    · exact nomatch h
    · simp only [Option.some.injEq, Except.ok.injEq, Prod.mk.injEq] at h
      obtain ⟨rfl, rfl⟩ := h
      exact ⟨rfl, hn, hsym, hsup, _, rfl, rfl, rfl, rfl, rfl, rfl, rfl, rfl, rfl, rfl, rfl,
        rfl⟩

/-- A successful `create_token` leaves the factory configuration alone. -/
theorem same_config_create_token {s : Store} {c : Address} {n sym : String} {d : Nat}
    {sup : Int} {uri : Option String} {fee : Int} {ext : Address} {now : Nat} {ex : Address}
    {s' : Store} (h : create_token s c n sym d sup uri fee ext now = some (.ok (ex, s'))) :
    SameConfig s s' := by
  obtain ⟨-, -, -, -, record, -, -, -, -, -, -, -, -, -, -, -, rfl⟩ := create_token_eq_ok h
  exact ⟨rfl, rfl, rfl, rfl⟩

theorem registry_inv_create_token {s : Store} {c : Address} {n sym : String} {d : Nat}
    {sup : Int} {uri : Option String} {fee : Int} {ext : Address} {now : Nat} {ex : Address}
    {s' : Store} (h : create_token s c n sym d sup uri fee ext now = some (.ok (ex, s')))
    (hfresh : get_token_info_by_address s ext = none) (hinv : RegistryInv s) :
    RegistryInv s' := by
  obtain ⟨-, -, -, -, record, haddr, -, -, -, -, -, -, -, -, -, -, rfl⟩ := create_token_eq_ok h
  obtain ⟨h1, h2, h3⟩ := hinv
  set k := get_token_count s with hk
  have hcount : get_token_count (increment_token_count
      (set_token_info_by_address (set_token_info s k record) ext record)) = k + 1 := rfl
  have hidx : ∀ i, get_token_info (increment_token_count
      (set_token_info_by_address (set_token_info s k record) ext record)) i =
      if i = k then some record else get_token_info s i := fun i => rfl
  have hby : ∀ x, get_token_info_by_address (increment_token_count
      (set_token_info_by_address (set_token_info s k record) ext record)) x =
      if x = ext then some record else get_token_info_by_address s x := fun x => rfl
  refine ⟨?_, ?_, ?_⟩
  · intro i hi
    rw [hcount] at hi
    by_cases hik : i = k
    · refine ⟨record, record, ?_, ?_, rfl, rfl, rfl, rfl, rfl, rfl, rfl⟩
      · rw [hidx, if_pos hik]
      · rw [hby, haddr, if_pos rfl]
    · have hilt : i < k := by omega
      obtain ⟨r, r', hri, hra, hag⟩ := h1 i hilt
      have hrne : r.address ≠ ext := by
        intro hcontra
        rw [hcontra, hfresh] at hra
        exact nomatch hra
      refine ⟨r, r', ?_, ?_, hag⟩
      · rw [hidx, if_neg hik]; exact hri
      · rw [hby, if_neg hrne]; exact hra
  · intro i j ri rj hi hj hij hri hrj
    rw [hcount] at hi hj
    rw [hidx] at hri hrj
    by_cases hik : i = k
    · rw [if_pos hik] at hri
      obtain rfl : record = ri := Option.some.inj hri
      have hjlt : j < k := by omega
      obtain ⟨r, r', hrj0, hra, -⟩ := h1 j hjlt
      rw [if_neg (by omega : ¬ j = k)] at hrj
      obtain rfl : r = rj := Option.some.inj (hrj0.symm.trans hrj)
      rw [haddr]
      intro hcontra
      rw [← hcontra, hfresh] at hra
      exact nomatch hra
    · rw [if_neg hik] at hri
      by_cases hjk : j = k
      · rw [if_pos hjk] at hrj
        obtain rfl : record = rj := Option.some.inj hrj
        have hilt : i < k := by omega
        obtain ⟨r, r', hri0, hra, -⟩ := h1 i hilt
        obtain rfl : r = ri := Option.some.inj (hri0.symm.trans hri)
        rw [haddr]
        intro hcontra
        rw [hcontra, hfresh] at hra
        exact nomatch hra
      · rw [if_neg hjk] at hrj
        exact h2 i j ri rj (by omega) (by omega) hij hri hrj
  · intro i hi
    rw [hcount] at hi
    rw [hidx, if_neg (by omega : ¬ i = k)]
    exact h3 i (by omega)

/-- Characterization of a successful `set_metadata`: the index holds a
record with unset metadata, and the write sets the URI on the index-keyed
record and (when present) on its identity-keyed twin. -/
theorem set_metadata_eq_ok {s : Store} {i : Nat} {uri : String} {s' : Store}
    (h : set_metadata s i uri = .ok s') :
    ∃ record, get_token_info s i = some record ∧ record.metadata_uri = none ∧
      ((∃ rba, get_token_info_by_address s record.address = some rba ∧
          s' = set_token_info_by_address
            (set_token_info s i { record with metadata_uri := some uri })
            record.address { rba with metadata_uri := some uri }) ∨
       (get_token_info_by_address s record.address = none ∧
          s' = set_token_info s i { record with metadata_uri := some uri })) := by
  unfold set_metadata at h
  split at h
  · exact nomatch h
  next record hrec =>
    split at h
    · exact nomatch h
    next hmd =>
      split at h
      next rba hrba =>
        exact ⟨record, hrec, hmd, .inl ⟨rba, hrba, (Except.ok.inj h).symm⟩⟩
      next hrba =>
        exact ⟨record, hrec, hmd, .inr ⟨hrba, (Except.ok.inj h).symm⟩⟩

theorem same_config_set_metadata {s : Store} {i : Nat} {uri : String} {s' : Store}
    (h : set_metadata s i uri = .ok s') : SameConfig s s' := by
  obtain ⟨record, -, -, hcase⟩ := set_metadata_eq_ok h
  rcases hcase with ⟨rba, -, rfl⟩ | ⟨-, rfl⟩
  · exact ⟨rfl, rfl, rfl, rfl⟩
  · exact ⟨rfl, rfl, rfl, rfl⟩

theorem registry_inv_set_metadata {s : Store} {i : Nat} {uri : String} {s' : Store}
    (h : set_metadata s i uri = .ok s') (hinv : RegistryInv s) : RegistryInv s' := by
  obtain ⟨record, hrec, hmd, hcase⟩ := set_metadata_eq_ok h
  obtain ⟨h1, h2, h3⟩ := hinv
  have hilt : i < get_token_count s := by
    by_contra hge
    rw [h3 i (by omega)] at hrec
    exact nomatch hrec
  obtain ⟨r0, rba0, hr0, hrba0, hag0⟩ := h1 i hilt
  have hreq : r0 = record := Option.some.inj (hr0.symm.trans hrec)
  rw [hreq] at hrba0 hag0
  rcases hcase with ⟨rba, hrba, rfl⟩ | ⟨hnone, -⟩
  · have hbeq : rba0 = rba := Option.some.inj (hrba0.symm.trans hrba)
    rw [hbeq] at hag0
    have hcount : ∀ t : Store, get_token_count (set_token_info_by_address
        (set_token_info s i { record with metadata_uri := some uri })
        record.address { rba with metadata_uri := some uri }) = get_token_count s :=
      fun _ => rfl
    have hidx : ∀ j, get_token_info (set_token_info_by_address
        (set_token_info s i { record with metadata_uri := some uri })
        record.address { rba with metadata_uri := some uri }) j =
        if j = i then some { record with metadata_uri := some uri }
        else get_token_info s j := fun j => rfl
    have hby : ∀ x, get_token_info_by_address (set_token_info_by_address
        (set_token_info s i { record with metadata_uri := some uri })
        record.address { rba with metadata_uri := some uri }) x =
        if x = record.address then some { rba with metadata_uri := some uri }
        else get_token_info_by_address s x := fun x => rfl
    refine ⟨?_, ?_, ?_⟩
    · intro j hj
      rw [hcount s] at hj
      by_cases hji : j = i
      · refine ⟨{ record with metadata_uri := some uri },
          { rba with metadata_uri := some uri }, ?_, ?_, ?_⟩
        · rw [hidx, if_pos hji]
        · rw [hby, if_pos rfl]
        · obtain ⟨a1, a2, a3, a4, a5, a6, a7⟩ := hag0
          exact ⟨a1, a2, a3, a4, a5, rfl, a7⟩
      · obtain ⟨r, r', hri, hra, hag⟩ := h1 j hj
        have hne : r.address ≠ record.address :=
          h2 j i r record hj hilt hji hri hrec
        refine ⟨r, r', ?_, ?_, hag⟩
        · rw [hidx, if_neg hji]; exact hri
        · rw [hby, if_neg hne]; exact hra
    · intro j k rj rk hj hk hjk hrj hrk
      rw [hcount s] at hj hk
      rw [hidx] at hrj hrk
      by_cases hji : j = i
      · rw [if_pos hji] at hrj
        obtain rfl : _ = rj := Option.some.inj hrj
        rw [if_neg (by omega : ¬ k = i)] at hrk
        have := h2 j k record rk hj hk hjk (hji ▸ hrec) hrk
        simpa using this
      · rw [if_neg hji] at hrj
        by_cases hki : k = i
        · rw [if_pos hki] at hrk
          obtain rfl : _ = rk := Option.some.inj hrk
          have := h2 j k rj record hj hk hjk hrj (hki ▸ hrec)
          simpa using this
        · rw [if_neg hki] at hrk
          exact h2 j k rj rk hj hk hjk hrj hrk
    · intro j hj
      rw [hcount s] at hj
      rw [hidx, if_neg (by omega : ¬ j = i)]
      exact h3 j hj
  · rw [hnone] at hrba0
    exact nomatch hrba0

/-- Characterization of a successful `burn`: the amount is positive, the
balance covered it, and the store change is the supply update. -/
theorem burn_eq_ok {s : Store} {tok holder : Address} {amount balance : Int} {s' : Store}
    (h : burn s tok holder amount balance = .ok s') :
    0 < amount ∧ ¬ balance < amount ∧ update_token_supply s tok (-amount) = some s' := by
  unfold burn at h
  split at h
  · exact nomatch h
  next hamt =>
    split at h
    · exact nomatch h
    next info hinfo =>
      split at h
      · exact nomatch h
      next hbal =>
        split at h
        · exact nomatch h
        next s1 hupd =>
          exact ⟨by omega, hbal, hupd.trans (congrArg some (Except.ok.inj h))⟩

/-- Characterization of a successful `admin_burn`: the token exists, the
caller is the creator, clawback is enabled, the amount is positive, and
the store change is the supply update. -/
theorem admin_burn_eq_ok {s : Store} {tok adm holder : Address} {amount : Int} {s' : Store}
    (h : admin_burn s tok adm holder amount = .ok s') :
    ∃ info, get_token_info_by_address s tok = some info ∧ info.creator = adm ∧
      info.clawback_enabled = true ∧ 0 < amount ∧
      update_token_supply s tok (-amount) = some s' := by
  unfold admin_burn at h
  split at h
  · exact nomatch h
  next info hinfo =>
    split at h
    · exact nomatch h
    next hcr =>
      split at h
      · exact nomatch h
      next hcb =>
        split at h
        · exact nomatch h
        next hamt =>
          split at h
          · exact nomatch h
          next s1 hupd =>
            refine ⟨info, hinfo, not_ne_iff.mp hcr, by simpa using hcb, not_le.mp hamt,
              hupd.trans (congrArg some (Except.ok.inj h))⟩

/-- Characterization of a successful `set_clawback`. -/
theorem set_clawback_eq_ok {s : Store} {tok adm : Address} {enabled : Bool} {s' : Store}
    (h : set_clawback s tok adm enabled = .ok s') :
    ∃ info, get_token_info_by_address s tok = some info ∧ info.creator = adm ∧
      s' = set_token_info_by_address s tok { info with clawback_enabled := enabled } := by
  unfold set_clawback at h
  split at h
  · exact nomatch h
  next info hinfo =>
    split at h
    · exact nomatch h
    next hcr =>
      exact ⟨info, hinfo, not_ne_iff.mp hcr, (Except.ok.inj h).symm⟩

theorem registry_inv_burn {s : Store} {tok holder : Address} {amount balance : Int}
    {s' : Store} (h : burn s tok holder amount balance = .ok s') (hinv : RegistryInv s) :
    RegistryInv s' :=
  registry_inv_update_token_supply (burn_eq_ok h).2.2 hinv

theorem same_config_burn {s : Store} {tok holder : Address} {amount balance : Int}
    {s' : Store} (h : burn s tok holder amount balance = .ok s') : SameConfig s s' :=
  same_config_update_token_supply (burn_eq_ok h).2.2

theorem registry_inv_burn_batch_go {tok : Address} {bal : Address → Int}
    (entries : List (Address × Int)) :
    ∀ s s', burn_batch_go s tok bal entries = .ok s' → RegistryInv s → RegistryInv s' := by
  induction entries with
  | nil =>
    intro s s' h hinv
    simp only [burn_batch_go] at h
    cases h
    exact hinv
  | cons e rest ih =>
    intro s s' h hinv
    obtain ⟨holder, amount⟩ := e
    simp only [burn_batch_go] at h
    split at h
    · exact nomatch h
    next s1 hb =>
      exact ih s1 s' h (registry_inv_burn hb hinv)

theorem same_config_burn_batch_go {tok : Address} {bal : Address → Int}
    (entries : List (Address × Int)) :
    ∀ s s', burn_batch_go s tok bal entries = .ok s' → SameConfig s s' := by
  induction entries with
  | nil =>
    intro s s' h
    simp only [burn_batch_go] at h
    cases h
    exact ⟨rfl, rfl, rfl, rfl⟩
  | cons e rest ih =>
    intro s s' h
    obtain ⟨holder, amount⟩ := e
    simp only [burn_batch_go] at h
    split at h
    · exact nomatch h
    next s1 hb =>
      obtain ⟨a1, a2, a3, a4⟩ := same_config_burn hb
      obtain ⟨b1, b2, b3, b4⟩ := ih s1 s' h
      exact ⟨b1.trans a1, b2.trans a2, b3.trans a3, b4.trans a4⟩

theorem registry_inv_set_clawback {s : Store} {tok adm : Address} {enabled : Bool}
    {s' : Store} (h : set_clawback s tok adm enabled = .ok s') (hinv : RegistryInv s) :
    RegistryInv s' := by
  obtain ⟨info, hinfo, -, rfl⟩ := set_clawback_eq_ok h
  exact registry_inv_write_noncore hinfo rfl rfl rfl rfl rfl rfl rfl hinv

theorem registry_inv_admin_burn {s : Store} {tok adm holder : Address} {amount : Int}
    {s' : Store} (h : admin_burn s tok adm holder amount = .ok s') (hinv : RegistryInv s) :
    RegistryInv s' := by
  obtain ⟨info, -, -, -, -, hupd⟩ := admin_burn_eq_ok h
  exact registry_inv_update_token_supply hupd hinv

/-- Every successful operation preserves the registry invariant. -/
theorem step_registry_inv {s : Store} {op : Op} {s' : Store} (h : Step s op s')
    (hinv : RegistryInv s) : RegistryInv s' := by
  obtain ⟨hok, happ⟩ := h
  cases op with
  | init_factory a t bf mf =>
    simp only [apply_op] at happ
    exact registry_inv_same_registry (same_registry_init_factory (Option.some.inj happ)) hinv
  | update_fees a bf mf =>
    simp only [apply_op] at happ
    exact registry_inv_same_registry (same_registry_update_fees happ) hinv
  | create_token c n sym d sup uri fee ext now =>
    simp only [apply_op] at happ
    split at happ
    · exact nomatch happ
    · exact nomatch happ
    next ex s1 hcreate =>
      obtain rfl : s1 = s' := by simpa using happ
      exact registry_inv_create_token hcreate hok hinv
  | set_metadata i uri =>
    simp only [apply_op] at happ
    exact registry_inv_set_metadata (Option.some.inj happ) hinv
  | burn tok holder amount balance =>
    simp only [apply_op] at happ
    exact registry_inv_burn (Option.some.inj happ) hinv
  | burn_batch tok entries bal =>
    simp only [apply_op] at happ
    exact registry_inv_burn_batch_go entries s s' (Option.some.inj happ) hinv
  | admin_burn tok adm holder amount =>
    simp only [apply_op] at happ
    exact registry_inv_admin_burn (Option.some.inj happ) hinv
  | set_clawback tok adm enabled =>
    simp only [apply_op] at happ
    exact registry_inv_set_clawback (Option.some.inj happ) hinv

/-- A trace of successful operations preserves the registry invariant. -/
theorem trace_registry_inv {s : Store} {ops : List Op} {s' : Store}
    (h : Trace s ops s') (hinv : RegistryInv s) : RegistryInv s' := by
  induction h with
  | nil => exact hinv
  | cons hstep _ ih => exact ih (step_registry_inv hstep hinv)

/-- The empty store satisfies the registry invariant. -/
theorem registry_inv_empty : RegistryInv emptyStore := by
  refine ⟨?_, ?_, ?_⟩
  · intro i hi
    exact absurd hi (by simp [emptyStore, get_token_count])
  · intro i j ri rj hi _ _ _ _
    exact absurd hi (by simp [emptyStore, get_token_count])
  · intro i _
    rfl

/-! ## Supply conservation -/

/-- A supply update with a negative (burn-type) change preserves the
quantity `total_supply + total_burned` of every present record. -/
theorem update_token_supply_conserves {s : Store} {a : Address} {c : Int} {s' : Store}
    (h : update_token_supply s a c = some s') (hc : c < 0) {x : Address} {r : TokenInfo}
    (hr : get_token_info_by_address s x = some r) :
    ∃ r', get_token_info_by_address s' x = some r' ∧
      r'.total_supply + r'.total_burned = r.total_supply + r.total_burned := by
  obtain ⟨info, hinfo, hcase⟩ := update_token_supply_eq_some h
  rcases hcase with ⟨-, ts, tb, bc, hts, htb, hbc, rfl⟩ | ⟨hnc, -⟩
  · by_cases hxa : x = a
    · subst hxa
      have hir : info = r := Option.some.inj (hinfo.symm.trans hr)
      subst hir
      refine ⟨{ info with total_supply := ts, total_burned := tb, burn_count := bc }, ?_, ?_⟩
      · rw [get_by_address_set_by_address, if_pos rfl]
      · have h1 := i128_checked_add_some hts
        have h2 := i128_checked_add_some htb
        show ts + tb = info.total_supply + info.total_burned
        omega
    · refine ⟨r, ?_, rfl⟩
      rw [get_by_address_set_by_address, if_neg hxa]
      exact hr
  · exact absurd hc hnc

theorem burn_conserves {s : Store} {tok holder : Address} {amount balance : Int} {s' : Store}
    (h : burn s tok holder amount balance = .ok s') {x : Address} {r : TokenInfo}
    (hr : get_token_info_by_address s x = some r) :
    ∃ r', get_token_info_by_address s' x = some r' ∧
      r'.total_supply + r'.total_burned = r.total_supply + r.total_burned := by
  obtain ⟨hamt, -, hupd⟩ := burn_eq_ok h
  exact update_token_supply_conserves hupd (by omega) hr

theorem burn_batch_go_conserves {tok : Address} {bal : Address → Int}
    (entries : List (Address × Int)) :
    ∀ s s', burn_batch_go s tok bal entries = .ok s' →
      ∀ x r, get_token_info_by_address s x = some r →
        ∃ r', get_token_info_by_address s' x = some r' ∧
          r'.total_supply + r'.total_burned = r.total_supply + r.total_burned := by
  induction entries with
  | nil =>
    intro s s' h x r hr
    simp only [burn_batch_go] at h
    cases h
    exact ⟨r, hr, rfl⟩
  | cons e rest ih =>
    intro s s' h x r hr
    obtain ⟨holder, amount⟩ := e
    simp only [burn_batch_go] at h
    split at h
    · exact nomatch h
    next s1 hb =>
      obtain ⟨r1, hr1, he1⟩ := burn_conserves hb hr
      obtain ⟨r2, hr2, he2⟩ := ih s1 s' h x r1 hr1
      exact ⟨r2, hr2, he2.trans he1⟩

/-- One successful operation preserves the `total_supply + total_burned`
sum of every record that is present before the step. -/
theorem step_conserves {s : Store} {op : Op} {s' : Store} (h : Step s op s')
    {x : Address} {r : TokenInfo} (hr : get_token_info_by_address s x = some r) :
    ∃ r', get_token_info_by_address s' x = some r' ∧
      r'.total_supply + r'.total_burned = r.total_supply + r.total_burned := by
  obtain ⟨hok, happ⟩ := h
  cases op with
  | init_factory a t bf mf =>
    simp only [apply_op] at happ
    obtain ⟨-, hby, -⟩ := same_registry_init_factory (Option.some.inj happ)
    exact ⟨r, (hby x).trans hr, rfl⟩
  | update_fees a bf mf =>
    simp only [apply_op] at happ
    obtain ⟨-, hby, -⟩ := same_registry_update_fees happ
    exact ⟨r, (hby x).trans hr, rfl⟩
  | create_token c n sym d sup uri fee ext now =>
    simp only [apply_op] at happ
    split at happ
    · exact nomatch happ
    · exact nomatch happ
    next ex s1 hcreate =>
      obtain rfl : s1 = s' := by simpa using happ
      obtain ⟨-, -, -, -, record, -, -, -, -, -, -, -, -, -, -, -, rfl⟩ :=
        create_token_eq_ok hcreate
      have hxne : x ≠ ext := by
        intro hcontra
        rw [hcontra, hok] at hr
        exact nomatch hr
      refine ⟨r, ?_, rfl⟩
      show (if x = ext then some record else get_token_info_by_address s x) = some r
      rw [if_neg hxne]
      exact hr
  | set_metadata i uri =>
    simp only [apply_op] at happ
    obtain ⟨record, hrec, -, hcase⟩ := set_metadata_eq_ok (Option.some.inj happ)
    rcases hcase with ⟨rba, hrba, rfl⟩ | ⟨-, rfl⟩
    · by_cases hxa : x = record.address
      · subst hxa
        have hbr : rba = r := Option.some.inj (hrba.symm.trans hr)
        subst hbr
        refine ⟨{ rba with metadata_uri := some uri }, ?_, rfl⟩
        rw [get_by_address_set_by_address, if_pos rfl]
      · refine ⟨r, ?_, rfl⟩
        rw [get_by_address_set_by_address, if_neg hxa]
        exact hr
    · exact ⟨r, hr, rfl⟩
  | burn tok holder amount balance =>
    simp only [apply_op] at happ
    exact burn_conserves (Option.some.inj happ) hr
  | burn_batch tok entries bal =>
    simp only [apply_op] at happ
    exact burn_batch_go_conserves entries s s' (Option.some.inj happ) x r hr
  | admin_burn tok adm holder amount =>
    simp only [apply_op] at happ
    obtain ⟨info, -, -, -, hamt, hupd⟩ := admin_burn_eq_ok (Option.some.inj happ)
    exact update_token_supply_conserves hupd (by omega) hr
  | set_clawback tok adm enabled =>
    simp only [apply_op] at happ
    obtain ⟨info, hinfo, -, rfl⟩ := set_clawback_eq_ok (Option.some.inj happ)
    by_cases hxa : x = tok
    · subst hxa
      have hir : info = r := Option.some.inj (hinfo.symm.trans hr)
      subst hir
      refine ⟨{ info with clawback_enabled := enabled }, ?_, rfl⟩
      rw [get_by_address_set_by_address, if_pos rfl]
    · refine ⟨r, ?_, rfl⟩
      rw [get_by_address_set_by_address, if_neg hxa]
      exact hr

/-- A trace of successful operations preserves the sum
`total_supply + total_burned` of every record present at its start. -/
theorem trace_conserves {s : Store} {ops : List Op} {s' : Store} (h : Trace s ops s') :
    ∀ x r, get_token_info_by_address s x = some r →
      ∃ r', get_token_info_by_address s' x = some r' ∧
        r'.total_supply + r'.total_burned = r.total_supply + r.total_burned := by
  induction h with
  | nil => exact fun x r hr => ⟨r, hr, rfl⟩
  | cons hstep _ ih =>
    intro x r hr
    obtain ⟨r1, hr1, he1⟩ := step_conserves hstep hr
    obtain ⟨r2, hr2, he2⟩ := ih x r1 hr1
    exact ⟨r2, hr2, he2.trans he1⟩

/-! ## Configuration before initialization -/

theorem noconfig_empty : NoConfig emptyStore := ⟨rfl, rfl, rfl, rfl⟩

theorem get_state_of_noconfig {s : Store} (h : NoConfig s) : get_state s = none := by
  unfold get_state get_factory_state get_admin
  rw [h.1]

/-- A successful non-initialization step cannot create any configuration
key: the configuration stays entirely absent. -/
theorem step_noconfig {s : Store} {op : Op} {s' : Store} (h : Step s op s')
    (hn : NoConfig s) (hni : opIsInit op = false) : NoConfig s' := by
  obtain ⟨hok, happ⟩ := h
  obtain ⟨hadm, htre, hbf, hmf⟩ := hn
  cases op with
  | init_factory a t bf mf => exact nomatch hni
  | update_fees a bf mf =>
    simp only [apply_op] at happ
    unfold update_fees get_admin at happ
    rw [hadm] at happ
    exact nomatch happ
  | create_token c n sym d sup uri fee ext now =>
    simp only [apply_op] at happ
    split at happ
    · exact nomatch happ
    · exact nomatch happ
    next ex s1 hcreate =>
      exfalso
      unfold create_token at hcreate
      split at hcreate
      · exact nomatch hcreate
      · unfold get_base_fee at hcreate
        rw [hbf] at hcreate
        exact nomatch hcreate
  | set_metadata i uri =>
    simp only [apply_op] at happ
    obtain ⟨a1, a2, a3, a4⟩ := same_config_set_metadata (Option.some.inj happ)
    exact ⟨a1.trans hadm, a2.trans htre, a3.trans hbf, a4.trans hmf⟩
  | burn tok holder amount balance =>
    simp only [apply_op] at happ
    obtain ⟨a1, a2, a3, a4⟩ := same_config_burn (Option.some.inj happ)
    exact ⟨a1.trans hadm, a2.trans htre, a3.trans hbf, a4.trans hmf⟩
  | burn_batch tok entries bal =>
    simp only [apply_op] at happ
    obtain ⟨a1, a2, a3, a4⟩ := same_config_burn_batch_go entries s s' (Option.some.inj happ)
    exact ⟨a1.trans hadm, a2.trans htre, a3.trans hbf, a4.trans hmf⟩
  | admin_burn tok adm holder amount =>
    simp only [apply_op] at happ
    obtain ⟨info, -, -, -, -, hupd⟩ := admin_burn_eq_ok (Option.some.inj happ)
    obtain ⟨a1, a2, a3, a4⟩ := same_config_update_token_supply hupd
    exact ⟨a1.trans hadm, a2.trans htre, a3.trans hbf, a4.trans hmf⟩
  | set_clawback tok adm enabled =>
    simp only [apply_op] at happ
    obtain ⟨info, hinfo, -, rfl⟩ := set_clawback_eq_ok (Option.some.inj happ)
    exact ⟨hadm, htre, hbf, hmf⟩

/-- A trace none of whose operations is the initialization keeps the
configuration entirely absent. -/
theorem trace_noconfig {s : Store} {ops : List Op} {s' : Store} (h : Trace s ops s')
    (hn : NoConfig s) (hni : ∀ op ∈ ops, opIsInit op = false) : NoConfig s' := by
  induction h with
  | nil => exact hn
  | cons hstep _ ih =>
    exact ih (step_noconfig hstep hn (hni _ (List.mem_cons_self _ _)))
      (fun op hop => hni op (List.mem_cons_of_mem _ hop))

/-! ## Claim theorems -/

/-- C5: the factory initialization fails with `AlreadyInitialized` when a
config already exists and with `InvalidParameters` when either fee is
negative, in both cases leaving the store unchanged; otherwise it commits
admin, treasury and the two fees as one unit, touching nothing else. -/
theorem C5_init_factory_contract :
    ∀ (s : Store) (a t : Address) (bf mf : Int),
      (has_admin s = true →
        init_factory s a t bf mf = .error .AlreadyInitialized ∧
        postE s (init_factory s a t bf mf) = s) ∧
      (has_admin s = false → (bf < 0 ∨ mf < 0) →
        init_factory s a t bf mf = .error .InvalidParameters ∧
        postE s (init_factory s a t bf mf) = s) ∧
      (has_admin s = false → 0 ≤ bf → 0 ≤ mf →
        ∃ s', init_factory s a t bf mf = .ok s' ∧
          s'.admin = some a ∧ s'.treasury = some t ∧ s'.base_fee = some bf ∧
          s'.metadata_fee = some mf ∧ s'.token_count = s.token_count ∧
          (∀ i, get_token_info s' i = get_token_info s i) ∧
          (∀ x, get_token_info_by_address s' x = get_token_info_by_address s x)) := by
  intro s a t bf mf
  refine ⟨?_, ?_, ?_⟩
  · intro h
    unfold init_factory
    rw [if_pos h]
    exact ⟨rfl, rfl⟩
  · intro h hneg
    unfold init_factory
    rw [if_neg (by simp [h]), if_pos hneg]
    exact ⟨rfl, rfl⟩
  · intro h hbf hmf
    unfold init_factory
    rw [if_neg (by simp [h]), if_neg (by omega)]
    exact ⟨_, rfl, rfl, rfl, rfl, rfl, rfl, fun i => rfl, fun x => rfl⟩

/-- C5 witness: a concrete successful initialization of the empty store. -/
theorem C5_init_factory_contract_witness :
    ∃ s', init_factory emptyStore 0 1 70 30 = .ok s' ∧
      s'.admin = some 0 ∧ s'.treasury = some 1 ∧ s'.base_fee = some 70 ∧
      s'.metadata_fee = some 30 ∧ s'.token_count = emptyStore.token_count ∧
      (∀ i, get_token_info s' i = get_token_info emptyStore i) ∧
      (∀ x, get_token_info_by_address s' x = get_token_info_by_address emptyStore x) :=
  (C5_init_factory_contract emptyStore 0 1 70 30).2.2 rfl (by decide) (by decide)

/-- C1: when the authenticated caller is the stored admin and at least
one provided fee is negative, `update_fees` fails with
`InvalidParameters` and both stored fees keep their pre-call values (the
host rolls back the failed invocation, so even the base-fee write that
the source performs before validating the metadata fee does not
survive). -/
theorem C1_update_fees_invalid_fee_atomic :
    ∀ (s : Store) (adm : Address) (bf mf : Option Int),
      get_admin s = some adm →
      ((∃ b, bf = some b ∧ b < 0) ∨ (∃ m, mf = some m ∧ m < 0)) →
      update_fees s adm bf mf = some (.error .InvalidParameters) ∧
      get_base_fee (postO s (update_fees s adm bf mf)) = get_base_fee s ∧
      get_metadata_fee (postO s (update_fees s adm bf mf)) = get_metadata_fee s := by
  intro s adm bf mf hadm hbad
  have hres : update_fees s adm bf mf = some (.error .InvalidParameters) := by
    rcases hbad with ⟨b, rfl, hb⟩ | ⟨m, rfl, hm⟩
    · simp [update_fees, hadm, hb]
    · cases bf with
      | none => simp [update_fees, hadm, hm]
      | some b =>
        by_cases hb : b < 0
        · simp [update_fees, hadm, hb]
        · simp [update_fees, hadm, hb, hm]
  exact ⟨hres, by rw [hres]; rfl, by rw [hres]; rfl⟩

/-- C1 witness: on an initialized store, an update with a valid base fee
and a negative metadata fee fails and changes neither stored fee. -/
theorem C1_update_fees_invalid_fee_atomic_witness :
    update_fees exS1 0 (some 100) (some (-1)) = some (.error .InvalidParameters) ∧
    get_base_fee (postO exS1 (update_fees exS1 0 (some 100) (some (-1)))) =
      get_base_fee exS1 ∧
    get_metadata_fee (postO exS1 (update_fees exS1 0 (some 100) (some (-1)))) =
      get_metadata_fee exS1 :=
  C1_update_fees_invalid_fee_atomic exS1 0 (some 100) (some (-1)) rfl
    (Or.inr ⟨-1, rfl, by decide⟩)

/-- C7: `admin_burn` fails with `TokenNotFound` on an unknown identity,
`Unauthorized` when the caller is not the creator, `ClawbackDisabled`
when the record's flag is off, and `InvalidBurnAmount` when the amount is
non-positive (checks in that order); each failure leaves the store
unchanged. -/
theorem C7_admin_burn_error_cases :
    ∀ (s : Store) (tok adm holder : Address) (amount : Int),
      (get_token_info_by_address s tok = none →
        admin_burn s tok adm holder amount = .error .TokenNotFound ∧
        postE s (admin_burn s tok adm holder amount) = s) ∧
      (∀ info, get_token_info_by_address s tok = some info → info.creator ≠ adm →
        admin_burn s tok adm holder amount = .error .Unauthorized ∧
        postE s (admin_burn s tok adm holder amount) = s) ∧
      (∀ info, get_token_info_by_address s tok = some info → info.creator = adm →
        info.clawback_enabled = false →
        admin_burn s tok adm holder amount = .error .ClawbackDisabled ∧
        postE s (admin_burn s tok adm holder amount) = s) ∧
      (∀ info, get_token_info_by_address s tok = some info → info.creator = adm →
        info.clawback_enabled = true → amount ≤ 0 →
        admin_burn s tok adm holder amount = .error .InvalidBurnAmount ∧
        postE s (admin_burn s tok adm holder amount) = s) := by
  intro s tok adm holder amount
  refine ⟨?_, ?_, ?_, ?_⟩
  · intro h
    have hres : admin_burn s tok adm holder amount = .error .TokenNotFound := by
      simp [admin_burn, h]
    exact ⟨hres, by rw [hres]; rfl⟩
  · intro info hinfo hne
    have hres : admin_burn s tok adm holder amount = .error .Unauthorized := by
      simp [admin_burn, hinfo, hne]
    exact ⟨hres, by rw [hres]; rfl⟩
  · intro info hinfo hcr hcb
    have hres : admin_burn s tok adm holder amount = .error .ClawbackDisabled := by
      simp [admin_burn, hinfo, hcr, hcb]
    exact ⟨hres, by rw [hres]; rfl⟩
  · intro info hinfo hcr hcb hamt
    have hres : admin_burn s tok adm holder amount = .error .InvalidBurnAmount := by
      simp [admin_burn, hinfo, hcr, hcb, hamt]
    exact ⟨hres, by rw [hres]; rfl⟩

/-- C7 witness: an admin burn on a store with no such token fails with
`TokenNotFound` and leaves the store unchanged. -/
theorem C7_admin_burn_error_cases_witness :
    admin_burn emptyStore 5 2 9 10 = .error .TokenNotFound ∧
    postE emptyStore (admin_burn emptyStore 5 2 9 10) = emptyStore :=
  (C7_admin_burn_error_cases emptyStore 5 2 9 10).1 rfl

/-- C6: a successful `admin_burn` with a positive amount updates the
token's record atomically: `total_supply` drops by exactly the amount,
`total_burned` rises by exactly the amount, `burn_count` rises by one;
and when any of the three checked additions would overflow its type, the
call instead fails as the validation error `InvalidParameters` with the
store (and hence the record) unchanged. -/
theorem C6_admin_burn_success_updates :
    ∀ (s : Store) (tok adm holder : Address) (amount : Int) (r : TokenInfo),
      get_token_info_by_address s tok = some r → 0 < amount →
      (∀ s', admin_burn s tok adm holder amount = .ok s' →
        ∃ r', get_token_info_by_address s' tok = some r' ∧
          r'.total_supply = r.total_supply - amount ∧
          r'.total_burned = r.total_burned + amount ∧
          r'.burn_count = r.burn_count + 1) ∧
      (r.creator = adm → r.clawback_enabled = true →
        (r.total_supply - amount < I128_MIN ∨ I128_MAX < r.total_burned + amount ∨
          U32_MAX < r.burn_count + 1) →
        admin_burn s tok adm holder amount = .error .InvalidParameters ∧
        postE s (admin_burn s tok adm holder amount) = s) := by
  intro s tok adm holder amount r hr hamt
  constructor
  · intro s' h
    obtain ⟨info, hinfo, -, -, -, hupd⟩ := admin_burn_eq_ok h
    have hir : info = r := Option.some.inj (hinfo.symm.trans hr)
    subst hir
    obtain ⟨r0, hr0, hcase⟩ := update_token_supply_eq_some hupd
    have hr0i : r0 = info := Option.some.inj (hr0.symm.trans hr)
    subst hr0i
    rcases hcase with ⟨-, ts, tb, bc, hts, htb, hbc, rfl⟩ | ⟨hnc, -⟩
    · have h1 := i128_checked_add_some hts
      have h2 := i128_checked_add_some htb
      have h3 := u32_checked_add_some hbc
      refine ⟨{ r0 with total_supply := ts, total_burned := tb, burn_count := bc }, ?_, ?_, ?_, ?_⟩
      · rw [get_by_address_set_by_address, if_pos rfl]
      · show ts = r0.total_supply - amount
        omega
      · show tb = r0.total_burned + amount
        omega
      · show bc = r0.burn_count + 1
        omega
    · exact absurd (by omega : (-amount) < 0) hnc
  · intro hcr hcb hover
    have hneg : (-amount) < 0 := by omega
    have hnone : update_token_supply s tok (-amount) = none := by
      rcases hover with h1 | h2 | h3
      · have hts : i128_checked_add r.total_supply (-amount) = none := by
          have hcond : ¬ (I128_MIN ≤ r.total_supply + (-amount) ∧
              r.total_supply + (-amount) ≤ I128_MAX) := by
            intro hc
            omega
          unfold i128_checked_add
          rw [if_neg hcond]
        simp [update_token_supply, hr, hts]
      · cases hts : i128_checked_add r.total_supply (-amount) with
        | none => simp [update_token_supply, hr, hts]
        | some ts =>
          have htb : i128_checked_add r.total_burned amount = none := by
            have hcond : ¬ (I128_MIN ≤ r.total_burned + amount ∧
                r.total_burned + amount ≤ I128_MAX) := by
              intro hc
              omega
            unfold i128_checked_add
            rw [if_neg hcond]
          simp [update_token_supply, hr, hts, hneg, htb]
      · cases hts : i128_checked_add r.total_supply (-amount) with
        | none => simp [update_token_supply, hr, hts]
        | some ts =>
          cases htb : i128_checked_add r.total_burned amount with
          | none => simp [update_token_supply, hr, hts, hneg, htb]
          | some tb =>
            have hbc : u32_checked_add r.burn_count 1 = none := by
              have hcond : ¬ (r.burn_count + 1 ≤ U32_MAX) := by omega
              unfold u32_checked_add
              rw [if_neg hcond]
            simp [update_token_supply, hr, hts, hneg, htb, hbc]
    have hres : admin_burn s tok adm holder amount = .error .InvalidParameters := by
      have hle : ¬ amount ≤ 0 := by omega
      simp [admin_burn, hr, hcr, hcb, hle, hnone]
    exact ⟨hres, by rw [hres]; rfl⟩

/-- Placeholder record used only as the impossible-case default of the
concrete record extractors below. -/
def fallbackRecord : TokenInfo :=
  { address := 0, creator := 0, name := "", symbol := "", decimals := 0, total_supply := 0,
    total_burned := 0, burn_count := 0, metadata_uri := none, clawback_enabled := false,
    created_at := 0 }

/-- The identity-keyed record of token 5 in `exS2`. -/
def exRec2 : TokenInfo :=
  match get_token_info_by_address exS2 5 with
  | some r => r
  | none => fallbackRecord

/-- The identity-keyed record of token 5 in `exS3`. -/
def exRec3 : TokenInfo :=
  match get_token_info_by_address exS3 5 with
  | some r => r
  | none => fallbackRecord

/-- C6 witness: the concrete over-supply admin burn on `exS3` succeeds
and moves the counters by exactly the burnt amount. -/
theorem C6_admin_burn_success_updates_witness :
    ∃ r', get_token_info_by_address exS4 5 = some r' ∧
      r'.total_supply = exRec3.total_supply - 2000000 ∧
      r'.total_burned = exRec3.total_burned + 2000000 ∧
      r'.burn_count = exRec3.burn_count + 1 :=
  (C6_admin_burn_success_updates exS3 5 2 9 2000000 exRec3 rfl (by decide)).1 exS4 rfl

/-- C10: a successful `admin_burn` changes only the identity-keyed entry
of the burnt token: admin, treasury, both fees, the token count, every
index-keyed entry and every other identity-keyed entry are unchanged, and
within the updated record only the supply, burn and count fields move. -/
theorem C10_admin_burn_frame :
    ∀ (s : Store) (tok adm holder : Address) (amount : Int) (s' : Store),
      admin_burn s tok adm holder amount = .ok s' →
      s'.admin = s.admin ∧ s'.treasury = s.treasury ∧ s'.base_fee = s.base_fee ∧
      s'.metadata_fee = s.metadata_fee ∧ s'.token_count = s.token_count ∧
      (∀ i, get_token_info s' i = get_token_info s i) ∧
      (∀ x, x ≠ tok → get_token_info_by_address s' x = get_token_info_by_address s x) ∧
      ∃ r r', get_token_info_by_address s tok = some r ∧
        get_token_info_by_address s' tok = some r' ∧
        r'.address = r.address ∧ r'.creator = r.creator ∧ r'.name = r.name ∧
        r'.symbol = r.symbol ∧ r'.decimals = r.decimals ∧
        r'.metadata_uri = r.metadata_uri ∧ r'.clawback_enabled = r.clawback_enabled ∧
        r'.created_at = r.created_at := by
  intro s tok adm holder amount s' h
  obtain ⟨info, hinfo, -, -, hamt, hupd⟩ := admin_burn_eq_ok h
  obtain ⟨r, hr, hcase⟩ := update_token_supply_eq_some hupd
  rcases hcase with ⟨-, ts, tb, bc, hts, htb, hbc, rfl⟩ | ⟨hnc, -⟩
  · refine ⟨rfl, rfl, rfl, rfl, rfl, fun i => rfl, ?_, ?_⟩
    · intro x hx
      rw [get_by_address_set_by_address, if_neg hx]
    · refine ⟨r, { r with total_supply := ts, total_burned := tb, burn_count := bc },
        hr, ?_, rfl, rfl, rfl, rfl, rfl, rfl, rfl, rfl⟩
      rw [get_by_address_set_by_address, if_pos rfl]
  · exact absurd (by omega : (-amount) < 0) hnc

/-- C10 witness: the frame condition instantiated on the concrete admin
burn from `exS3` to `exS4`. -/
theorem C10_admin_burn_frame_witness :
    exS4.admin = exS3.admin ∧ exS4.treasury = exS3.treasury ∧
    exS4.base_fee = exS3.base_fee ∧ exS4.metadata_fee = exS3.metadata_fee ∧
    exS4.token_count = exS3.token_count ∧
    (∀ i, get_token_info exS4 i = get_token_info exS3 i) ∧
    (∀ x, x ≠ 5 → get_token_info_by_address exS4 x = get_token_info_by_address exS3 x) ∧
    ∃ r r', get_token_info_by_address exS3 5 = some r ∧
      get_token_info_by_address exS4 5 = some r' ∧
      r'.address = r.address ∧ r'.creator = r.creator ∧ r'.name = r.name ∧
      r'.symbol = r.symbol ∧ r'.decimals = r.decimals ∧
      r'.metadata_uri = r.metadata_uri ∧ r'.clawback_enabled = r.clawback_enabled ∧
      r'.created_at = r.created_at :=
  C10_admin_burn_frame exS3 5 2 9 2000000 exS4 rfl

/-- C4: supply conservation.  Along any trace of successful operations
the sum `total_supply + total_burned` of a record present at both ends is
unchanged (hence it never decreases); a record created by `create_token`
starts with that sum equal to the initial supply; and every burn-type
supply update (negative change) leaves the sum unchanged. -/
theorem C4_supply_conservation :
    (∀ (s : Store) (ops : List Op) (s' : Store) (x : Address) (r r' : TokenInfo),
      Trace s ops s' → get_token_info_by_address s x = some r →
      get_token_info_by_address s' x = some r' →
      r'.total_supply + r'.total_burned = r.total_supply + r.total_burned) ∧
    (∀ (s : Store) (c : Address) (n sym : String) (d : Nat) (sup : Int)
        (uri : Option String) (fee : Int) (ext : Address) (now : Nat) (ex : Address)
        (s' : Store) (r : TokenInfo),
      create_token s c n sym d sup uri fee ext now = some (.ok (ex, s')) →
      get_token_info_by_address s' ex = some r →
      r.total_supply + r.total_burned = sup) ∧
    (∀ (s : Store) (a : Address) (amt : Int) (s' : Store) (r r' : TokenInfo),
      update_token_supply s a amt = some s' → amt < 0 →
      get_token_info_by_address s a = some r → get_token_info_by_address s' a = some r' →
      r'.total_supply + r'.total_burned = r.total_supply + r.total_burned) := by
  refine ⟨?_, ?_, ?_⟩
  · intro s ops s' x r r' htr hr hr'
    obtain ⟨r2, hr2, he2⟩ := trace_conserves htr x r hr
    rw [Option.some.inj (hr2.symm.trans hr')] at he2
    exact he2
  · intro s c n sym d sup uri fee ext now ex s' r hcreate hr
    obtain ⟨rfl, -, -, -, record, -, -, -, -, -, hsup, hburn, -, -, -, -, rfl⟩ :=
      create_token_eq_ok hcreate
    have hsome : (if ex = ex then some record else get_token_info_by_address s ex) = some r := hr
    rw [if_pos rfl] at hsome
    rw [← Option.some.inj hsome, hsup, hburn]
    omega
  · intro s a amt s' r r' hupd hneg hr hr'
    obtain ⟨r2, hr2, he2⟩ := update_token_supply_conserves hupd hneg hr
    rw [Option.some.inj (hr2.symm.trans hr')] at he2
    exact he2

/-- C4 witness: the conservation equation instantiated on the concrete
clawback-toggle step from `exS2` to `exS3` for token 5. -/
theorem C4_supply_conservation_witness :
    exRec3.total_supply + exRec3.total_burned = exRec2.total_supply + exRec2.total_burned :=
  C4_supply_conservation.1 exS2 [exOp2] exS3 5 exRec2 exRec3
    (Trace.cons ⟨trivial, rfl⟩ (Trace.nil _)) rfl rfl

/-- C2 counterexample: in the reachable state `exS3` (factory
initialized, one token created, clawback then enabled by the creator),
the record stored under index 0 and the record stored under the identity
key of that record's address are different — `set_clawback` wrote only
the identity-keyed entry, so dual-index agreement is not preserved by
every operation. -/
theorem C2_dual_index_divergence_counterexample :
    Trace emptyStore [exOp0, exOp1, exOp2] exS3 ∧
    get_token_count exS3 = 1 ∧
    ∃ r r', get_token_info exS3 0 = some r ∧
      get_token_info_by_address exS3 r.address = some r' ∧ r ≠ r' := by
  refine ⟨?_, rfl, ?_⟩
  · exact Trace.cons ⟨trivial, rfl⟩
      (Trace.cons ⟨rfl, rfl⟩ (Trace.cons ⟨trivial, rfl⟩ (Trace.nil _)))
  · refine ⟨_, _, rfl, rfl, ?_⟩
    decide

/-- C2 amended: in every state reachable from the empty store, each
index below the token count holds a record whose identity-keyed twin
exists and agrees with it on `address`, `creator`, `name`, `symbol`,
`decimals`, `metadata_uri` and `created_at`; the supply and burn counters
and the clawback flag may differ, because `admin_burn` and `set_clawback`
write only the identity-keyed entry. -/
theorem C2_dual_index_core_agreement :
    ∀ (ops : List Op) (s : Store), Trace emptyStore ops s →
      ∀ i, i < get_token_count s →
        ∃ r r', get_token_info s i = some r ∧
          get_token_info_by_address s r.address = some r' ∧ AgreeCore r r' :=
  fun _ _ h => (trace_registry_inv h registry_inv_empty).1

/-- C2 amended witness: core agreement of the two records of token 0 in
the concrete reachable state `exS3`. -/
theorem C2_dual_index_core_agreement_witness :
    ∃ r r', get_token_info exS3 0 = some r ∧
      get_token_info_by_address exS3 r.address = some r' ∧ AgreeCore r r' :=
  C2_dual_index_core_agreement [exOp0, exOp1, exOp2] exS3
    (Trace.cons ⟨trivial, rfl⟩
      (Trace.cons ⟨rfl, rfl⟩ (Trace.cons ⟨trivial, rfl⟩ (Trace.nil _))))
    0 (by decide)

/-- C3 evaluation: along the reachable trace that initializes the
factory, creates a token with total supply 1000000, enables clawback and
then admin-burns 2000000, the burn succeeds and commits
`total_supply = -1000000 < 0`; the code never consults a balance (the
check is a commented-out TODO in `admin_burn`) and never produces
`BurnAmountExceedsBalance`, contradicting the claim, the function's own
doc comment and the test suite. -/
theorem C3_admin_burn_negative_supply :
    Trace emptyStore [exOp0, exOp1, exOp2, exOp3] exS4 ∧
    ∃ r, get_token_info_by_address exS4 5 = some r ∧
      r.total_supply = -1000000 ∧ r.total_supply < 0 := by
  refine ⟨?_, ?_⟩
  · exact Trace.cons ⟨trivial, rfl⟩
      (Trace.cons ⟨rfl, rfl⟩
        (Trace.cons ⟨trivial, rfl⟩ (Trace.cons ⟨trivial, rfl⟩ (Trace.nil _))))
  · refine ⟨_, rfl, ?_, ?_⟩
    · decide
    · decide

/-- C8: `set_metadata` writes a record's `metadata_uri` only when it is
currently unset.  When the URI is already set the call fails with
`MetadataAlreadySet` and the store — in particular the existing value —
is untouched; when it is unset the call succeeds, the record's URI
becomes the given one, and from then on every further `set_metadata` on
that record fails with `MetadataAlreadySet`, so the field transitions
from unset to set at most once. -/
theorem C8_set_metadata_write_once :
    ∀ (s : Store) (i : Nat) (uri : String) (r : TokenInfo),
      get_token_info s i = some r →
      (∀ u0, r.metadata_uri = some u0 →
        set_metadata s i uri = .error .MetadataAlreadySet ∧
        postE s (set_metadata s i uri) = s ∧
        get_token_info (postE s (set_metadata s i uri)) i = some r) ∧
      (r.metadata_uri = none →
        ∃ s', set_metadata s i uri = .ok s' ∧
          get_token_info s' i = some { r with metadata_uri := some uri } ∧
          ∀ uri2, set_metadata s' i uri2 = .error .MetadataAlreadySet) := by
  intro s i uri r hrec
  constructor
  · intro u0 hmd
    have hres : set_metadata s i uri = .error .MetadataAlreadySet := by
      simp [set_metadata, hrec, hmd]
    exact ⟨hres, by rw [hres]; rfl, by rw [hres]; exact hrec⟩
  · intro hmd
    have hok : ∃ s', set_metadata s i uri = .ok s' := by
      cases hba : get_token_info_by_address s r.address with
      | some rba =>
        refine ⟨set_token_info_by_address
          (set_token_info s i { r with metadata_uri := some uri })
          r.address { rba with metadata_uri := some uri }, ?_⟩
        simp [set_metadata, hrec, hmd, get_by_address_set_token_info, hba]
      | none =>
        refine ⟨set_token_info s i { r with metadata_uri := some uri }, ?_⟩
        simp [set_metadata, hrec, hmd, get_by_address_set_token_info, hba]
    obtain ⟨s', hs'⟩ := hok
    obtain ⟨record, hrec2, -, hcase⟩ := set_metadata_eq_ok hs'
    have hrr : record = r := Option.some.inj (hrec2.symm.trans hrec)
    subst hrr
    have hidx : get_token_info s' i = some { record with metadata_uri := some uri } := by
      rcases hcase with ⟨rba, -, rfl⟩ | ⟨-, rfl⟩
      · show (if i = i then some { record with metadata_uri := some uri }
          else get_token_info s i) = _
        rw [if_pos rfl]
      · show (if i = i then some { record with metadata_uri := some uri }
          else get_token_info s i) = _
        rw [if_pos rfl]
    refine ⟨s', hs', hidx, ?_⟩
    intro uri2
    simp [set_metadata, hidx]

/-- C8 witness: setting the metadata of token 0 in the concrete state
`exS2` succeeds once, and any further attempt fails. -/
theorem C8_set_metadata_write_once_witness :
    ∃ s', set_metadata exS2 0 "ipfs://QmTest123" = .ok s' ∧
      get_token_info s' 0 = some { exRec2 with metadata_uri := some "ipfs://QmTest123" } ∧
      ∀ uri2, set_metadata s' 0 uri2 = .error .MetadataAlreadySet :=
  (C8_set_metadata_write_once exS2 0 "ipfs://QmTest123" exRec2 rfl).2 rfl

/-- C9: calling `get_state` or `update_fees` on the store before any
successful initialization does not return an error value — both unwrap
the missing `Admin` key and trap (modelled by `none`); and in any state
reached from the empty store in which `get_state` returns without
trapping, the trace must contain the initialization operation. -/
theorem C9_get_state_requires_init :
    get_state emptyStore = none ∧
    (∀ (adm : Address) (bf mf : Option Int), update_fees emptyStore adm bf mf = none) ∧
    (∀ (ops : List Op) (s : Store), Trace emptyStore ops s →
      (get_state s).isSome = true → ∃ op, op ∈ ops ∧ opIsInit op = true) := by
  refine ⟨rfl, fun adm bf mf => rfl, ?_⟩
  intro ops s htr hsome
  by_contra hno
  push_neg at hno
  have hall : ∀ op ∈ ops, opIsInit op = false := by
    intro op hop
    have := hno op hop
    simpa using this
  have hnc : NoConfig s := trace_noconfig htr noconfig_empty hall
  rw [get_state_of_noconfig hnc] at hsome
  exact nomatch hsome

/-- C9 witness: after the concrete initialization step, `get_state`
returns a value and the trace indeed contains the initialization. -/
theorem C9_get_state_requires_init_witness :
    ∃ op, op ∈ [exOp0] ∧ opIsInit op = true :=
  C9_get_state_requires_init.2.2 [exOp0] exS1
    (Trace.cons ⟨trivial, rfl⟩ (Trace.nil _)) rfl
